import Mathlib

/-!
Verification of the cibyl CI-query engine's core: the hierarchical model
merge (Job / Build / Test and the System container), the capability-based
source resolver, the scope validator, and the error-wrapping decorator.

Each definition is a shallow embedding of the corresponding Python
function of the repository.  Python dictionaries (`AttributeDictValue`,
the class itself lives in `cibyl/models/attribute.py` which is not part
of the staged sources; it is a thin insertion-ordered mapping wrapper,
modelled from the spec as such) are embedded as insertion-ordered
association lists `List (String × α)` with the usual dict operations:
lookup of the (unique) key, in-place update of an existing key,
append of a fresh key.
-/

set_option linter.unusedVariables false

/-- Python `d[k]` / `d.get(k)` on an insertion-ordered dict. -/
def dlookup {α : Type} (d : List (String × α)) (k : String) : Option α :=
  match d with
  | [] => none
  | (k2, v) :: rest => if k2 = k then some v else dlookup rest k

/-- Python `d[k] = v`: replace the value of an existing key in place,
append a fresh key at the end. -/
def dset {α : Type} (d : List (String × α)) (k : String) (v : α) :
    List (String × α) :=
  match d with
  | [] => [(k, v)]
  | (k2, v2) :: rest =>
    if k2 = k then (k2, v) :: rest else (k2, v2) :: dset rest k v

/-- Python `d.keys()` (iteration order). -/
def dkeys {α : Type} (d : List (String × α)) : List String :=
  d.map Prod.fst

/-- Python `d.values()` (iteration order). -/
def dvalues {α : Type} (d : List (String × α)) : List α :=
  d.map Prod.snd

/-- Python falsiness of an optional string attribute value
(`not self.url.value` is `True` for `None` and for `""`). -/
def strUnset (v : Option String) : Bool :=
  match v with
  | none => true
  | some s => s = ""

/-- Python falsiness of an optional integer attribute value
(`not value` is `True` for `None` and for `0`). -/
def intUnset (v : Option Int) : Bool :=
  match v with
  | none => true
  | some n => n = 0

/-- Fill-if-absent on an optional string scalar:
`if not self.f.value: self.f.value = other.f.value`. -/
def fillStr (self other : Option String) : Option String :=
  if strUnset self then other else self

/-- Fill-if-absent on an optional integer scalar. -/
def fillInt (self other : Option Int) : Option Int :=
  if intUnset self then other else self

/-- Modelled from the spec: `cibyl/models/ci/test.py` is not among the
staged sources.  Spec §3: "Test: name (identity key within a Build),
result, optional duration, optional class name". -/
structure Test where
  name : String
  result : Option String
  duration : Option Int
  class_name : Option String
deriving DecidableEq, Repr

/-- Modelled from the spec: `Test.merge` is not among the staged sources.
Spec §4.2: the recursion "bottoms out at Test (leaf: merges scalar
fields only, no further children)", each scalar field with the
fill-if-absent rule. -/
def Test.merge (self other : Test) : Test :=
  { self with
    result := fillStr self.result other.result
    duration := fillInt self.duration other.duration
    class_name := fillStr self.class_name other.class_name }

/-- `cibyl/models/ci/build.py`, class `Build`: build_id (identity key),
status, duration, tests keyed by test name. -/
structure Build where
  build_id : String
  status : Option String
  duration : Option Int
  tests : List (String × Test)
deriving DecidableEq, Repr

/-- `Build.add_test` (build.py lines 87-97): look the test up by its
name; merge into the stored test when the key is present, store the
incoming test under its name otherwise. -/
def Build.add_test (b : Build) (t : Test) : Build :=
  match dlookup b.tests t.name with
  | some existing => { b with tests := dset b.tests t.name (existing.merge t) }
  | none => { b with tests := dset b.tests t.name t }

/-- `Build.merge` (build.py lines 99-109): fill the status if unset,
then `add_test` every test of `other` (in `other`'s iteration order). -/
def Build.merge (self other : Build) : Build :=
  let filled := { self with status := fillStr self.status other.status }
  (dvalues other.tests).foldl Build.add_test filled

/-- `cibyl/models/ci/job.py`, class `Job`: name (identity key), url,
builds keyed by build id. -/
structure Job where
  name : String
  url : Option String
  builds : List (String × Build)
deriving DecidableEq, Repr

/-- `Job.add_build` (job.py lines 76-86): look the build up by its id
(`if build_id in self.builds` iterates the dict's keys); merge into the
stored build when present, store the incoming build otherwise. -/
def Job.add_build (j : Job) (b : Build) : Job :=
  match dlookup j.builds b.build_id with
  | some existing => { j with builds := dset j.builds b.build_id (existing.merge b) }
  | none => { j with builds := dset j.builds b.build_id b }

/-- `Job.merge` (job.py lines 88-98): fill the url if unset, then
`add_build` every build of `other`. -/
def Job.merge (self other : Job) : Job :=
  let filled := { self with url := fillStr self.url other.url }
  (dvalues other.builds).foldl Job.add_build filled

/-- `cibyl/sources/source.py`, class `Source` (an `AttrDict`): name,
driver, enabled flag, priority, and — for the resolver — the table of
the source's query-method attributes, each carrying the `speed_index`
dictionary its `@speed_index({...})` decorator attached (base score and
per-flag extras, all integers).  `hasattr(source, func_name)` for an
operation name is membership in this table. -/
structure Source where
  name : String
  driver : String
  enabled : Bool
  priority : Int
  methods : List (String × List (String × Int))
deriving DecidableEq, Repr

/-- The keyword arguments of `Source.__init__` the claims are about:
an absent key is `none`, an explicitly passed value is `some`. -/
structure SourceKwargs where
  enabled : Option Bool
  priority : Option Int
deriving DecidableEq, Repr

/-- `Source.__init__` (source.py lines 69-73):
`kwargs.setdefault('enabled', True)`, `kwargs.setdefault('priority', 0)`,
then every keyword becomes an attribute. -/
def Source.make (name driver : String) (kwargs : SourceKwargs)
    (methods : List (String × List (String × Int))) : Source :=
  { name := name
    driver := driver
    enabled := kwargs.enabled.getD true
    priority := kwargs.priority.getD 0
    methods := methods }

/-- `is_source_valid` (source.py lines 76-97): enabled and
`hasattr(source, desired_attr)`. -/
def is_source_valid (source : Source) (desired_attr : String) : Bool :=
  if !source.enabled then false
  else if (dlookup source.methods desired_attr).isNone then false
  else true

/-- `get_source_speed_score` (source.py lines 100-114):
`speed = speed_index.get('base', 0)` then
`for arg in args: speed += speed_index.get(arg, 0)`
(iterating the user-input dict iterates its keys). -/
def get_source_speed_score (source : Source) (func_name : String)
    (args : List String) : Int :=
  let si := (dlookup source.methods func_name).getD []
  let speed := (dlookup si "base").getD 0
  args.foldl (fun acc arg => acc + (dlookup si arg).getD 0) speed

/-- The payload of `NoSupportedSourcesFound`
(`cibyl/exceptions/source.py` lines 19-28): the system name and the
requested function name. -/
structure NoSupportedSourcesFound where
  system : String
  function : String
deriving DecidableEq, Repr

/-- The `for source in sources` loop of `get_source_method`
(source.py lines 137-143), carrying the running `speed_score` and the
currently selected `source_method` (represented by its source: the
method returned is `getattr(source, func_name)`, determined by the
source and the fixed `func_name`). -/
def select_source (func_name : String) (args : List String) :
    List Source → Int → Option Source → Option Source × Int
  | [], speed_score, source_method => (source_method, speed_score)
  | source :: rest, speed_score, source_method =>
    if is_source_valid source func_name then
      let s := get_source_speed_score source func_name args
      if s > speed_score then
        select_source func_name args rest s (some source)
      else
        select_source func_name args rest speed_score source_method
    else
      select_source func_name args rest speed_score source_method

/-- `get_source_method` (source.py lines 117-150): run the selection
loop from `speed_score = 0`, `source_method = None`; raise
`NoSupportedSourcesFound(system_name, func_name)` when no method was
selected (`if not source_method` — a bound method is always truthy, so
this is exactly the `None` check), return the selected method
otherwise. -/
def get_source_method (system_name : String) (sources : List Source)
    (func_name : String) (args : List String) :
    Except NoSupportedSourcesFound Source :=
  match (select_source func_name args sources 0 none).1 with
  | none => Except.error { system := system_name, function := func_name }
  | some source => Except.ok source

/-- `cibyl/models/ci/system.py`, class `System`: name, system_type,
the attached sources (an ordered list) and the jobs keyed by name. -/
structure CISystem where
  name : String
  system_type : String
  sources : List Source
  jobs : List (String × Job)
deriving DecidableEq, Repr

/-- Python `job_name == job` for a string and a `Job`:
`str.__eq__` returns `NotImplemented`, the reflected `Job.__eq__`
(job.py lines 71-74) starts with `isinstance(other, Job)`, which a
string fails, so the comparison is always `False`. -/
def strEqJob (job_name : String) (job : Job) : Bool := false

/-- `System.add_job` (system.py lines 101-111): the guard is
`if job_name in self.jobs.values()` — membership of the *name string*
among the dict's *values* (the `Job` objects), decided entry-wise by
`strEqJob`.  When the guard holds the stored job is merged with the
incoming one; otherwise `self.jobs[job_name] = job` stores the incoming
job under its name (replacing any stored job of that name). -/
def CISystem.add_job (s : CISystem) (job : Job) : CISystem :=
  let job_name := job.name
  if (dvalues s.jobs).any (strEqJob job_name) then
    match dlookup s.jobs job_name with
    | some existing => { s with jobs := dset s.jobs job_name (existing.merge job) }
    | none => s
  else
    { s with jobs := dset s.jobs job_name job }

/-- Modelled from the spec: `cibyl/models/ci/environment.py` is not
among the staged sources.  Spec §3: "Environment: name (identity key);
owns a set of Systems keyed by name" — the validator iterates
`env.systems` and replaces it with the filtered subset. -/
structure Environment where
  name : String
  systems : List CISystem
deriving DecidableEq, Repr

/-- Modelled from the spec: `cibyl/cli/argument.py` is not among the
staged sources.  An `Argument` object carries the user-supplied value;
for the name-constraint flags the validator reads, that value is an
ordered list of strings (spec §6).  The object itself is truthy, so
`if self.ci_args.get(k):` distinguishes a present flag from an absent
one. -/
structure Argument where
  value : List String
deriving DecidableEq, Repr

/-- The `ci_args` user-input dictionary restricted to the four keys the
validator reads (`env_name`, `systems`, `system_type`, `sources`);
`none` is an absent key (`ci_args.get(k)` returns `None`). -/
structure CiArgs where
  env_name : Option Argument
  systems : Option Argument
  system_type : Option Argument
  sources : Option Argument
deriving DecidableEq, Repr

/-- The validator's error surface (`cibyl/exceptions/model.py`):
`InvalidEnvironment(environment, valid_environments)` (lines 45-59),
`InvalidSystem(system, valid_systems)` (lines 62-75) and
`NoValidSystem(valid_systems)` (lines 29-42), each carrying the
arguments its constructor receives. -/
inductive VError where
  | invalidEnvironment (environment : String) (valid_environments : List String)
  | invalidSystem (system : String) (valid_systems : List String)
  | noValidSystem (valid_systems : List String)
deriving DecidableEq, Repr

/-- `Validator._check_input_environments` (validator.py lines 33-49):
when the flag is present, walk its values in order and raise on the
first one not contained in `all_envs`.  Returns the offending name
(`none` = no exception). -/
def check_input_environments (ci_input : Option Argument)
    (all_envs : List String) : Option String :=
  match ci_input with
  | none => none
  | some arg => arg.value.find? (fun env_name => !all_envs.contains env_name)

/-- `Validator._consistent_environment` (validator.py lines 51-62). -/
def consistent_environment (args : CiArgs) (env : Environment) : Bool :=
  match args.env_name with
  | some user_env => user_env.value.contains env.name
  | none => true

/-- `Validator._consistent_system` (validator.py lines 64-90): the
system-type constraint, the system-name constraint, and — when the user
constrained by source name — a nonempty intersection of the requested
names with the names of the system's attached sources. -/
def consistent_system (args : CiArgs) (system : CISystem) : Bool :=
  let system_sources := system.sources.map Source.name
  if (match args.system_type with
      | some user_system_type => !user_system_type.value.contains system.system_type
      | none => false) then false
  else if (match args.systems with
      | some user_systems => !user_systems.value.contains system.name
      | none => false) then false
  else if (match args.sources with
      | some user_sources => !user_sources.value.any (fun n => system_sources.contains n)
      | none => false) then false
  else true

/-- The body of the `for env in environments` filtering loop of
`validate_environments` (validator.py lines 113-134), with the
accumulated `(user_envs, user_systems)` made explicit: a consistent
environment contributes its consistent systems; an environment whose
filtered system list is empty is skipped entirely; a kept environment
is returned with `env.systems.value` replaced by the filtered list. -/
def filter_environments (args : CiArgs) :
    List Environment → List Environment × List CISystem
  | [] => ([], [])
  | env :: rest =>
    let acc := filter_environments args rest
    if !consistent_environment args env then acc
    else
      let env_systems := env.systems.filter (consistent_system args)
      if env_systems.isEmpty then acc
      else ({ env with systems := env_systems } :: acc.1, env_systems ++ acc.2)

/-- `Validator.validate_environments` (validator.py lines 92-138):
pass 1 collects every configured environment name and system name and
raises `InvalidEnvironment` / `InvalidSystem` on an unknown requested
name; pass 2 filters; `NoValidSystem(all_systems)` when no system
survives, otherwise the kept environments and systems. -/
def validate_environments (args : CiArgs) (environments : List Environment) :
    Except VError (List Environment × List CISystem) :=
  let all_envs := environments.map Environment.name
  let all_systems := (environments.flatMap Environment.systems).map CISystem.name
  match check_input_environments args.env_name all_envs with
  | some bad => Except.error (VError.invalidEnvironment bad all_envs)
  | none =>
    match check_input_environments args.systems all_systems with
    | some bad => Except.error (VError.invalidSystem bad all_systems)
    | none =>
      let kept := filter_environments args environments
      if kept.2.isEmpty then Except.error (VError.noValidSystem all_systems)
      else Except.ok kept

/-- The exception families `safe_request_generic` distinguishes
(source.py lines 45-61): `requests.exceptions.SSLError`,
`requests.exceptions.ConnectionError`, `requests.exceptions.HTTPError`
(carrying `ex.response.status_code`), and any other `Exception`. -/
inductive RequestsError where
  | sslError
  | connectionError
  | httpError (status_code : Nat)
  | otherException (detail : String)
deriving DecidableEq, Repr

/-- A per-backend custom error class such as `JenkinsError`
(`safe_request = partial(safe_request_generic, custom_error=JenkinsError)`,
jenkins.py line 43), carrying the message it was constructed with. -/
structure CustomError where
  message : String
deriving DecidableEq, Repr

/-- `safe_request_generic` (source.py lines 28-63): the outcome of the
wrapped call (`Except.ok` = normal return, `Except.error` = the raised
exception) mapped through the `try/except` chain of `request_handler`:
every exception is re-raised as `custom_error` with the corresponding
message, a normal return passes through unchanged. -/
def safe_request_generic {α : Type} (request : Except RequestsError α) :
    Except CustomError α :=
  match request with
  | Except.ok v => Except.ok v
  | Except.error RequestsError.sslError =>
    Except.error { message := "Please set certificates in order to connect to the system" }
  | Except.error RequestsError.connectionError =>
    Except.error { message := "Could not connect to target host, please ensure connection details are correct." }
  | Except.error (RequestsError.httpError code) =>
    Except.error { message := "Got response " ++ toString code ++ " from target host." }
  | Except.error (RequestsError.otherException d) =>
    Except.error { message := "Failure on request to target host." }

/-! Concrete fixtures used by the evaluation theorems and witnesses. -/

/-- A build with id "1" and status SUCCESS, no tests. -/
def buildOne : Build :=
  { build_id := "1", status := some "SUCCESS", duration := none, tests := [] }

/-- A job already stored in a system: url set, one build. -/
def jobStored : Job :=
  { name := "j", url := some "http://ci.example.org/j", builds := [("1", buildOne)] }

/-- An incoming partial job of the same name: no url, no builds. -/
def jobIncoming : Job :=
  { name := "j", url := none, builds := [] }

/-- A system already holding `jobStored` under its name. -/
def sysStored : CISystem :=
  { name := "jenkins_system", system_type := "jenkins", sources := [],
    jobs := [("j", jobStored)] }

/-- An enabled source declaring `get_jobs` with `speed_index
{'base': 0}`: capable, but its speed score is 0. -/
def zeroScoreSource : Source :=
  { name := "es", driver := "elasticsearch", enabled := true, priority := 0,
    methods := [("get_jobs", [("base", 0)])] }

/-- A source whose name the validator's source filter can match. -/
def srcJenkins : Source :=
  { name := "jenkins_source", driver := "jenkins", enabled := true,
    priority := 0, methods := [] }

/-- A system with a matching attached source. -/
def sysA : CISystem :=
  { name := "A", system_type := "jenkins", sources := [srcJenkins], jobs := [] }

/-- A system with no attached sources. -/
def sysB : CISystem :=
  { name := "B", system_type := "jenkins", sources := [], jobs := [] }

/-- Another system with no attached sources, of another type. -/
def sysC : CISystem :=
  { name := "C", system_type := "zuul", sources := [], jobs := [] }

/-- An environment with one matching and one non-matching system. -/
def envE1 : Environment := { name := "e1", systems := [sysA, sysB] }

/-- An environment with only a non-matching system. -/
def envE2 : Environment := { name := "e2", systems := [sysC] }

/-- User input constraining only by source name. -/
def argsSourceFilter : CiArgs :=
  { env_name := none, systems := none, system_type := none,
    sources := some { value := ["jenkins_source"] } }

/-- Scenario C configuration: only the environment "staging" exists. -/
def envStaging : Environment := { name := "staging", systems := [sysB] }

/-- Scenario C user input: the environment "prod" is requested. -/
def argsProd : CiArgs :=
  { env_name := some { value := ["prod"] }, systems := none,
    system_type := none, sources := none }

/-- Scenario A sources: `srcX` declares `get_builds` with base 1,
`srcY` and `srcZ` with base 2; the priorities differ wildly and must
not matter. -/
def srcX : Source :=
  { name := "x", driver := "jenkins", enabled := true, priority := 5,
    methods := [("get_builds", [("base", 1)])] }

/-- Second Scenario A source (base 2, first of the tie). -/
def srcY : Source :=
  { name := "y", driver := "jenkins", enabled := true, priority := 0,
    methods := [("get_builds", [("base", 2)])] }

/-- Third Scenario A source (base 2, later tie partner). -/
def srcZ : Source :=
  { name := "z", driver := "zuul", enabled := true, priority := 9,
    methods := [("get_builds", [("base", 2)])] }

/-- A concrete test result. -/
def tFix : Test :=
  { name := "t1", result := some "PASSED", duration := none, class_name := none }

/-- A build with the same id as `buildOne` but no status and one test. -/
def buildTwo : Build :=
  { build_id := "1", status := none, duration := none, tests := [("t1", tFix)] }

/-- Identity-keyed well-formedness of a build's tests mapping: each
test is stored under its own name, and keys are unique (a Python dict
cannot repeat a key; `add_test` always stores under `test.name`). -/
def Build.wf (b : Build) : Prop :=
  (dkeys b.tests).Nodup ∧ ∀ kv ∈ b.tests, kv.1 = kv.2.name

instance (b : Build) : Decidable b.wf := by
  unfold Build.wf
  exact inferInstance

/-- Identity-keyed well-formedness of a job: each build is stored under
its own id, keys are unique, and each stored build is well-formed. -/
def Job.wf (j : Job) : Prop :=
  (dkeys j.builds).Nodup ∧ ∀ kv ∈ j.builds, kv.1 = kv.2.build_id ∧ kv.2.wf

instance (j : Job) : Decidable j.wf := by
  unfold Job.wf
  exact inferInstance

/-! Helper lemmas about the embedded operations. -/

/-- Looking up in a dict after `d[k] = v`. -/
theorem dlookup_dset {α : Type} (l : List (String × α)) (k k2 : String) (v : α) :
    dlookup (dset l k v) k2 = if k2 = k then some v else dlookup l k2 := by
  induction l with
  | nil =>
    by_cases h : k2 = k
    · subst h; simp [dset, dlookup]
    · simp [dset, dlookup, h, Ne.symm h]
  | cons hd tl ih =>
    obtain ⟨hk, hv⟩ := hd
    by_cases h1 : hk = k
    · subst h1
      by_cases h2 : k2 = hk
      · subst h2; simp [dset, dlookup]
      · simp [dset, dlookup, h2, Ne.symm h2]
    · by_cases h2 : hk = k2
      · subst h2
        have hne : ¬ hk = k := h1
        simp [dset, dlookup, h1, Ne.symm h1]
      · simp [dset, dlookup, h1, h2, ih]

/-- Writing back the value already stored at a key leaves the dict
unchanged. -/
theorem dset_lookup_self {α : Type} (l : List (String × α)) (k : String) (v : α)
    (h : dlookup l k = some v) : dset l k v = l := by
  induction l with
  | nil => simp [dlookup] at h
  | cons hd tl ih =>
    obtain ⟨hk, hv⟩ := hd
    by_cases h1 : hk = k
    · subst h1
      simp [dlookup] at h
      simp [dset, h]
    · simp [dlookup, h1] at h
      simp [dset, h1, ih h]

/-- With unique keys, membership of an entry determines the lookup. -/
theorem dlookup_of_mem_nodup {α : Type} (l : List (String × α)) (k : String)
    (v : α) (hnd : (dkeys l).Nodup) (hmem : (k, v) ∈ l) :
    dlookup l k = some v := by
  induction l with
  | nil => simp at hmem
  | cons hd tl ih =>
    obtain ⟨hk, hv⟩ := hd
    simp [dkeys] at hnd
    rcases List.mem_cons.mp hmem with heq | hmem2
    · cases heq
      simp [dlookup]
    · have hne : ¬ hk = k := by
        intro hcontra
        subst hcontra
        exact hnd.1 v (by simpa using hmem2)
      simp [dlookup, hne]
      exact ih hnd.2 hmem2

/-- A fold whose every step fixes the accumulator fixes it overall. -/
theorem foldl_fixed {α β : Type} (f : α → β → α) (x : α) (l : List β)
    (h : ∀ a ∈ l, f x a = x) : l.foldl f x = x := by
  induction l with
  | nil => rfl
  | cons b rest ih =>
    have hx : f x b = x := h b (List.mem_cons_self b rest)
    simp only [List.foldl, hx]
    exact ih (fun a ha => h a (List.mem_cons_of_mem b ha))

/-- Filling a scalar from itself changes nothing. -/
theorem fillStr_self (a : Option String) : fillStr a a = a := by
  unfold fillStr; split <;> rfl

/-- Filling an integer scalar from itself changes nothing. -/
theorem fillInt_self (a : Option Int) : fillInt a a = a := by
  unfold fillInt; split <;> rfl

/-- Fill-if-absent is idempotent in the incoming value. -/
theorem fillStr_idem (a b : Option String) :
    fillStr (fillStr a b) b = fillStr a b := by
  unfold fillStr
  by_cases h : strUnset a
  · simp [h, fillStr_self, fillStr]
  · simp [h]

/-- Fill-if-absent on integers is idempotent in the incoming value. -/
theorem fillInt_idem (a b : Option Int) :
    fillInt (fillInt a b) b = fillInt a b := by
  unfold fillInt
  by_cases h : intUnset a
  · simp [h, fillInt_self, fillInt]
  · simp [h]

/-- Merging a test with itself changes nothing. -/
theorem test_merge_self (t : Test) : t.merge t = t := by
  simp [Test.merge, fillStr_self, fillInt_self]

/-- Merging the same incoming test a second time changes nothing. -/
theorem test_merge_twice (a b : Test) : (a.merge b).merge b = a.merge b := by
  simp [Test.merge, fillStr_idem, fillInt_idem]

/-- `add_build` only touches the `builds` field. -/
theorem url_add_build (j : Job) (b : Build) : (j.add_build b).url = j.url := by
  unfold Job.add_build
  cases dlookup j.builds b.build_id <;> rfl

/-- Folding `add_build` over a list of builds leaves `url` unchanged. -/
theorem url_foldl_add_build (l : List Build) (j : Job) :
    (l.foldl Job.add_build j).url = j.url := by
  induction l generalizing j with
  | nil => rfl
  | cons b rest ih =>
    simpa [url_add_build] using ih (j.add_build b)

/-- The url of a merged job is the fill-if-absent of the two urls. -/
theorem url_merge (j1 j2 : Job) : (j1.merge j2).url = fillStr j1.url j2.url := by
  have h := url_foldl_add_build (dvalues j2.builds)
    { j1 with url := fillStr j1.url j2.url }
  simpa [Job.merge] using h

/-- `add_test` only touches the `tests` field. -/
theorem status_add_test (b : Build) (t : Test) : (b.add_test t).status = b.status := by
  unfold Build.add_test
  cases dlookup b.tests t.name <;> rfl

/-- Folding `add_test` over a list of tests leaves `status` unchanged. -/
theorem status_foldl_add_test (l : List Test) (b : Build) :
    (l.foldl Build.add_test b).status = b.status := by
  induction l generalizing b with
  | nil => rfl
  | cons t rest ih =>
    simpa [status_add_test] using ih (b.add_test t)

/-- The status of a merged build is the fill-if-absent of the two. -/
theorem status_merge (b1 b2 : Build) :
    (b1.merge b2).status = fillStr b1.status b2.status := by
  have h := status_foldl_add_test (dvalues b2.tests)
    { b1 with status := fillStr b1.status b2.status }
  simpa [Build.merge] using h

/-- Lookup in the tests mapping after one `add_test`. -/
theorem dlookup_add_test (b : Build) (t : Test) (k : String) :
    dlookup (b.add_test t).tests k =
      if k = t.name then
        some (match dlookup b.tests t.name with
              | some e => e.merge t
              | none => t)
      else dlookup b.tests k := by
  unfold Build.add_test
  cases h : dlookup b.tests t.name <;> simp [h, dlookup_dset]

/-- Folding `add_test` over tests whose names avoid `k` leaves the
entry at `k` unchanged. -/
theorem foldl_add_test_untouched (vs : List Test) (b : Build) (k : String)
    (h : ∀ t ∈ vs, t.name ≠ k) :
    dlookup ((vs.foldl Build.add_test b).tests) k = dlookup b.tests k := by
  induction vs generalizing b with
  | nil => rfl
  | cons t rest ih =>
    have hne : t.name ≠ k := h t (List.mem_cons_self t rest)
    simp only [List.foldl]
    rw [ih _ (fun u hu => h u (List.mem_cons_of_mem t hu))]
    rw [dlookup_add_test, if_neg (Ne.symm hne)]

/-- After folding `add_test` over a duplicate-free list of tests, every
test of the list is stored under its name as a value that absorbs a
further merge with that test. -/
theorem foldl_add_test_stable (vs : List Test) (hnd : (vs.map Test.name).Nodup)
    (t : Test) (ht : t ∈ vs) (b : Build) :
    ∃ st, dlookup ((vs.foldl Build.add_test b).tests) t.name = some st ∧
      st.merge t = st := by
  induction vs generalizing b with
  | nil => simp at ht
  | cons t0 rest ih =>
    rw [List.map_cons, List.nodup_cons] at hnd
    rcases List.mem_cons.mp ht with heq | hmem
    · subst heq
      simp only [List.foldl]
      have huntouched : ∀ u ∈ rest, u.name ≠ t.name := by
        intro u hu hcontra
        exact hnd.1 (hcontra ▸ List.mem_map_of_mem Test.name hu)
      rw [foldl_add_test_untouched rest _ _ huntouched, dlookup_add_test,
        if_pos rfl]
      cases h : dlookup b.tests t.name with
      | none => exact ⟨t, rfl, test_merge_self t⟩
      | some e => exact ⟨e.merge t, rfl, test_merge_twice e t⟩
    · simp only [List.foldl]
      exact ih hnd.2 hmem (b.add_test t0)

/-- `add_test` is the identity when the stored value absorbs the
merge. -/
theorem add_test_stable (b : Build) (t st : Test)
    (h : dlookup b.tests t.name = some st) (habs : st.merge t = st) :
    b.add_test t = b := by
  unfold Build.add_test
  rw [h]
  show { b with tests := dset b.tests t.name (st.merge t) } = b
  rw [habs, dset_lookup_self b.tests t.name st h]

/-- With every entry keyed by its value's identity, values map back to
the key list. -/
theorem dvalues_map_eq_dkeys {α : Type} (f : α → String) (l : List (String × α))
    (h : ∀ kv ∈ l, kv.1 = f kv.2) : (dvalues l).map f = dkeys l := by
  induction l with
  | nil => rfl
  | cons hd tl ih =>
    simp only [dvalues, dkeys, List.map_cons] at *
    rw [ih (fun kv hkv => h kv (List.mem_cons_of_mem hd hkv))]
    rw [← h hd (List.mem_cons_self hd tl)]

/-- Merging a well-formed build with itself changes nothing. -/
theorem build_merge_self (b : Build) (h : b.wf) : b.merge b = b := by
  obtain ⟨hnd, hkv⟩ := h
  show (dvalues b.tests).foldl Build.add_test
    { b with status := fillStr b.status b.status } = b
  rw [fillStr_self]
  refine foldl_fixed _ _ _ ?_
  intro t htv
  rcases List.mem_map.mp htv with ⟨kv, hmem, hsnd⟩
  have hentry : (t.name, t) ∈ b.tests := by
    have hk : kv.1 = t.name := by rw [hkv kv hmem, hsnd]
    have : kv = (t.name, t) := by
      obtain ⟨a, u⟩ := kv
      simp only at hk hsnd
      rw [hk, hsnd]
    exact this ▸ hmem
  exact add_test_stable _ _ _
    (dlookup_of_mem_nodup b.tests t.name t hnd hentry) (test_merge_self t)

/-- Merging the same incoming (well-formed) build a second time changes
nothing. -/
theorem build_merge_twice (b1 b2 : Build) (h2 : b2.wf) :
    (b1.merge b2).merge b2 = b1.merge b2 := by
  obtain ⟨hnd, hkv⟩ := h2
  show (dvalues b2.tests).foldl Build.add_test
    { b1.merge b2 with status := fillStr (b1.merge b2).status b2.status } =
      b1.merge b2
  have hst : fillStr (b1.merge b2).status b2.status = (b1.merge b2).status := by
    rw [status_merge, fillStr_idem]
  rw [hst]
  refine foldl_fixed _ _ _ ?_
  intro t htv
  have hndv : ((dvalues b2.tests).map Test.name).Nodup := by
    rw [dvalues_map_eq_dkeys Test.name b2.tests hkv]
    exact hnd
  obtain ⟨st, hlook, habs⟩ := foldl_add_test_stable (dvalues b2.tests) hndv t htv
    { b1 with status := fillStr b1.status b2.status }
  exact add_test_stable _ _ _ hlook habs

/-- Lookup in the builds mapping after one `add_build`. -/
theorem dlookup_add_build (j : Job) (b : Build) (k : String) :
    dlookup (j.add_build b).builds k =
      if k = b.build_id then
        some (match dlookup j.builds b.build_id with
              | some e => e.merge b
              | none => b)
      else dlookup j.builds k := by
  unfold Job.add_build
  cases h : dlookup j.builds b.build_id <;> simp [h, dlookup_dset]

/-- Folding `add_build` over builds whose ids avoid `k` leaves the
entry at `k` unchanged. -/
theorem foldl_add_build_untouched (vs : List Build) (j : Job) (k : String)
    (h : ∀ b ∈ vs, b.build_id ≠ k) :
    dlookup ((vs.foldl Job.add_build j).builds) k = dlookup j.builds k := by
  induction vs generalizing j with
  | nil => rfl
  | cons b rest ih =>
    have hne : b.build_id ≠ k := h b (List.mem_cons_self b rest)
    simp only [List.foldl]
    rw [ih _ (fun u hu => h u (List.mem_cons_of_mem b hu))]
    rw [dlookup_add_build, if_neg (Ne.symm hne)]

/-- After folding `add_build` over a duplicate-free list of well-formed
builds, every build of the list is stored under its id as a value that
absorbs a further merge with that build. -/
theorem foldl_add_build_stable (vs : List Build)
    (hnd : (vs.map Build.build_id).Nodup) (hwf : ∀ u ∈ vs, u.wf)
    (b : Build) (hb : b ∈ vs) (j : Job) :
    ∃ sb, dlookup ((vs.foldl Job.add_build j).builds) b.build_id = some sb ∧
      sb.merge b = sb := by
  induction vs generalizing j with
  | nil => simp at hb
  | cons b0 rest ih =>
    rw [List.map_cons, List.nodup_cons] at hnd
    rcases List.mem_cons.mp hb with heq | hmem
    · subst heq
      simp only [List.foldl]
      have huntouched : ∀ u ∈ rest, u.build_id ≠ b.build_id := by
        intro u hu hcontra
        exact hnd.1 (hcontra ▸ List.mem_map_of_mem Build.build_id hu)
      rw [foldl_add_build_untouched rest _ _ huntouched, dlookup_add_build,
        if_pos rfl]
      have hbwf : b.wf := hwf b (List.mem_cons_self b rest)
      cases h : dlookup j.builds b.build_id with
      | none => exact ⟨b, rfl, build_merge_self b hbwf⟩
      | some e => exact ⟨e.merge b, rfl, build_merge_twice e b hbwf⟩
    · simp only [List.foldl]
      exact ih hnd.2 (fun u hu => hwf u (List.mem_cons_of_mem b0 hu)) hmem
        (j.add_build b0)

/-- `add_build` is the identity when the stored value absorbs the
merge. -/
theorem add_build_stable (j : Job) (b sb : Build)
    (h : dlookup j.builds b.build_id = some sb) (habs : sb.merge b = sb) :
    j.add_build b = j := by
  unfold Job.add_build
  rw [h]
  show { j with builds := dset j.builds b.build_id (sb.merge b) } = j
  rw [habs, dset_lookup_self j.builds b.build_id sb h]

/-- Merging a well-formed job with itself changes nothing. -/
theorem job_merge_self (j : Job) (h : j.wf) : j.merge j = j := by
  obtain ⟨hnd, hkv⟩ := h
  show (dvalues j.builds).foldl Job.add_build
    { j with url := fillStr j.url j.url } = j
  rw [fillStr_self]
  refine foldl_fixed _ _ _ ?_
  intro b hbv
  rcases List.mem_map.mp hbv with ⟨kv, hmem, hsnd⟩
  have hentry : (b.build_id, b) ∈ j.builds := by
    have hk : kv.1 = b.build_id := by rw [(hkv kv hmem).1, hsnd]
    have : kv = (b.build_id, b) := by
      obtain ⟨a, u⟩ := kv
      simp only at hk hsnd
      rw [hk, hsnd]
    exact this ▸ hmem
  have hbwf : b.wf := by
    have := (hkv kv hmem).2
    rwa [hsnd] at this
  exact add_build_stable _ _ _
    (dlookup_of_mem_nodup j.builds b.build_id b hnd hentry)
    (build_merge_self b hbwf)

/-- Merging the same incoming (well-formed) job a second time changes
nothing. -/
theorem job_merge_twice (j1 j2 : Job) (h2 : j2.wf) :
    (j1.merge j2).merge j2 = j1.merge j2 := by
  obtain ⟨hnd, hkv⟩ := h2
  show (dvalues j2.builds).foldl Job.add_build
    { j1.merge j2 with url := fillStr (j1.merge j2).url j2.url } = j1.merge j2
  have hu : fillStr (j1.merge j2).url j2.url = (j1.merge j2).url := by
    rw [url_merge, fillStr_idem]
  rw [hu]
  refine foldl_fixed _ _ _ ?_
  intro b hbv
  have hndv : ((dvalues j2.builds).map Build.build_id).Nodup := by
    rw [dvalues_map_eq_dkeys Build.build_id j2.builds (fun kv hkv2 => (hkv kv hkv2).1)]
    exact hnd
  have hwfv : ∀ u ∈ dvalues j2.builds, u.wf := by
    intro u hu
    rcases List.mem_map.mp hu with ⟨kv, hmem, hsnd⟩
    have := (hkv kv hmem).2
    rwa [hsnd] at this
  obtain ⟨sb, hlook, habs⟩ := foldl_add_build_stable (dvalues j2.builds) hndv
    hwfv b hbv { j1 with url := fillStr j1.url j2.url }
  exact add_build_stable _ _ _ hlook habs

/-! The claims. -/

/-- C1: the claim says `System.add_job` looks the existing child up by
the job's name and merges when a job of that name is already stored.
The code's guard `job_name in self.jobs.values()` compares the name
string with the stored `Job` objects and is therefore always `False`,
so adding a job whose name is already a key of `self.jobs` *replaces*
the stored job instead of merging with it: here the stored job's url
is lost where a merge would have kept it. -/
theorem c1_add_job_replaces_instead_of_merging :
    (sysStored.add_job jobIncoming).jobs = [("j", jobIncoming)] ∧
    (jobStored.merge jobIncoming).url = some "http://ci.example.org/j" ∧
    dlookup (sysStored.add_job jobIncoming).jobs "j" ≠
      some (jobStored.merge jobIncoming) := by
  refine ⟨by decide, ?_, by decide⟩
  simp [url_merge]
  decide

/-- C2: the claim says `get_source_method` raises `NoSupportedSourcesFound`
only when no enabled source has the requested attribute.  An enabled
source declaring the operation with speed score 0 is valid, yet the
selection threshold starts at 0 and a candidate must score strictly
greater, so the code still raises. -/
theorem c2_zero_score_capable_source_still_raises :
    is_source_valid zeroScoreSource "get_jobs" = true ∧
    get_source_speed_score zeroScoreSource "get_jobs" [] = 0 ∧
    get_source_method "production" [zeroScoreSource] "get_jobs" [] =
      Except.error { system := "production", function := "get_jobs" } := by
  exact ⟨by decide, by decide, rfl⟩

/-- Folding per-flag additions equals adding the sum of the extras. -/
theorem foldl_add_sum (si : List (String × Int)) (args : List String) (acc : Int) :
    args.foldl (fun a c => a + (dlookup si c).getD 0) acc =
      acc + (args.map (fun c => (dlookup si c).getD 0)).sum := by
  induction args generalizing acc with
  | nil => simp
  | cons a rest ih =>
    simp only [List.foldl, List.map_cons, List.sum_cons]
    rw [ih]
    ring

/-- The selection loop's outcome: either no candidate beat the incoming
score (and every valid candidate of the list scores at most it), or the
first candidate attaining the maximum — strictly above the incoming
score — was selected: every valid candidate before it scores strictly
less, every valid candidate after it at most as much. -/
theorem select_source_spec (func_name : String) (args : List String) :
    ∀ (l : List Source) (sc : Int) (best : Option Source),
      ((select_source func_name args l sc best).1 = best ∧
        ∀ t ∈ l, is_source_valid t func_name = true →
          get_source_speed_score t func_name args ≤ sc) ∨
      (∃ pre src post,
        (select_source func_name args l sc best).1 = some src ∧
        l = pre ++ src :: post ∧
        is_source_valid src func_name = true ∧
        sc < get_source_speed_score src func_name args ∧
        (∀ t ∈ pre, is_source_valid t func_name = true →
          get_source_speed_score t func_name args <
            get_source_speed_score src func_name args) ∧
        (∀ t ∈ post, is_source_valid t func_name = true →
          get_source_speed_score t func_name args ≤
            get_source_speed_score src func_name args)) := by
  intro l
  induction l with
  | nil =>
    intro sc best
    left
    exact ⟨rfl, by simp⟩
  | cons s rest ih =>
    intro sc best
    by_cases hv : is_source_valid s func_name = true
    · by_cases hgt : sc < get_source_speed_score s func_name args
      · have hsel : select_source func_name args (s :: rest) sc best =
            select_source func_name args rest
              (get_source_speed_score s func_name args) (some s) := by
          simp [select_source, hv, hgt]
        rcases ih (get_source_speed_score s func_name args) (some s) with
          ⟨h1, h2⟩ | ⟨pre, src, post, h1, h2, h3, h4, h5, h6⟩
        · right
          exact ⟨[], s, rest, by rw [hsel]; exact h1, rfl, hv, hgt, by simp, h2⟩
        · right
          refine ⟨s :: pre, src, post, by rw [hsel]; exact h1, by rw [h2, List.cons_append], h3,
            lt_trans hgt h4, ?_, h6⟩
          intro t htmem htv
          rcases List.mem_cons.mp htmem with rfl | hmem2
          · exact h4
          · exact h5 t hmem2 htv
      · have hle : get_source_speed_score s func_name args ≤ sc := not_lt.mp hgt
        have hsel : select_source func_name args (s :: rest) sc best =
            select_source func_name args rest sc best := by
          simp [select_source, hv, hgt]
        rcases ih sc best with
          ⟨h1, h2⟩ | ⟨pre, src, post, h1, h2, h3, h4, h5, h6⟩
        · left
          refine ⟨by rw [hsel]; exact h1, ?_⟩
          intro t htmem htv
          rcases List.mem_cons.mp htmem with rfl | hmem2
          · exact hle
          · exact h2 t hmem2 htv
        · right
          refine ⟨s :: pre, src, post, by rw [hsel]; exact h1, by rw [h2, List.cons_append], h3,
            h4, ?_, h6⟩
          intro t htmem htv
          rcases List.mem_cons.mp htmem with rfl | hmem2
          · exact lt_of_le_of_lt hle h4
          · exact h5 t hmem2 htv
    · have hsel : select_source func_name args (s :: rest) sc best =
          select_source func_name args rest sc best := by
        simp [select_source, hv]
      rcases ih sc best with
        ⟨h1, h2⟩ | ⟨pre, src, post, h1, h2, h3, h4, h5, h6⟩
      · left
        refine ⟨by rw [hsel]; exact h1, ?_⟩
        intro t htmem htv
        rcases List.mem_cons.mp htmem with rfl | hmem2
        · exact absurd htv hv
        · exact h2 t hmem2 htv
      · right
        refine ⟨s :: pre, src, post, by rw [hsel]; exact h1, by rw [h2, List.cons_append], h3,
          h4, ?_, h6⟩
        intro t htmem htv
        rcases List.mem_cons.mp htmem with rfl | hmem2
        · exact absurd htv hv
        · exact h5 t hmem2 htv

/-- Changing every source's priority changes neither the running score
nor which source the loop selects. -/
theorem select_source_map_priority (func_name : String) (args : List String)
    (p : Int) :
    ∀ (l : List Source) (sc : Int) (best : Option Source),
      select_source func_name args (l.map (fun s => { s with priority := p }))
          sc (best.map (fun s => { s with priority := p })) =
        ((select_source func_name args l sc best).1.map
            (fun s => { s with priority := p }),
          (select_source func_name args l sc best).2) := by
  intro l
  induction l with
  | nil =>
    intro sc best
    rfl
  | cons s rest ih =>
    intro sc best
    by_cases hv : is_source_valid s func_name = true
    · by_cases hgt : sc < get_source_speed_score s func_name args
      · have hl : select_source func_name args
            ((s :: rest).map (fun s => { s with priority := p })) sc
            (best.map (fun s => { s with priority := p })) =
            select_source func_name args
              (rest.map (fun s => { s with priority := p }))
              (get_source_speed_score s func_name args)
              (some { s with priority := p }) := by
          have hv2 : is_source_valid { s with priority := p } func_name = true := hv
          have hs2 : get_source_speed_score { s with priority := p } func_name args =
              get_source_speed_score s func_name args := rfl
          simp [select_source, hv2, hs2, hgt]
        have hr : select_source func_name args (s :: rest) sc best =
            select_source func_name args rest
              (get_source_speed_score s func_name args) (some s) := by
          simp [select_source, hv, hgt]
        rw [hl, hr]
        exact ih (get_source_speed_score s func_name args) (some s)
      · have hl : select_source func_name args
            ((s :: rest).map (fun s => { s with priority := p })) sc
            (best.map (fun s => { s with priority := p })) =
            select_source func_name args
              (rest.map (fun s => { s with priority := p })) sc
              (best.map (fun s => { s with priority := p })) := by
          have hv2 : is_source_valid { s with priority := p } func_name = true := hv
          have hs2 : get_source_speed_score { s with priority := p } func_name args =
              get_source_speed_score s func_name args := rfl
          simp [select_source, hv2, hs2, hgt]
        have hr : select_source func_name args (s :: rest) sc best =
            select_source func_name args rest sc best := by
          simp [select_source, hv, hgt]
        rw [hl, hr]
        exact ih sc best
    · have hv2 : ¬ is_source_valid { s with priority := p } func_name = true := hv
      have hl : select_source func_name args
          ((s :: rest).map (fun s => { s with priority := p })) sc
          (best.map (fun s => { s with priority := p })) =
          select_source func_name args
            (rest.map (fun s => { s with priority := p })) sc
            (best.map (fun s => { s with priority := p })) := by
        simp [select_source, hv2]
      have hr : select_source func_name args (s :: rest) sc best =
          select_source func_name args rest sc best := by
        simp [select_source, hv]
      rw [hl, hr]
      exact ih sc best

/-- C3: the resolver is a pure function of the source list, operation
and flags; the score of a candidate is the operation's base score plus
the sum of the per-flag extras for the supplied flags; a returned
source is the first one attaining the maximum score: every enabled
capable source attached before it scores strictly less (so a candidate
displaces the selection only on a strictly greater score, and ties keep
the earliest-seen source), every one after it scores no more; and
re-writing every source's priority leaves the outcome unchanged. -/
theorem c3_resolver_deterministic_selection (system_name : String)
    (sources : List Source) (func_name : String) (args : List String) (p : Int) :
    (∀ source : Source,
      get_source_speed_score source func_name args =
        (dlookup ((dlookup source.methods func_name).getD []) "base").getD 0 +
          (args.map
            (fun a => (dlookup ((dlookup source.methods func_name).getD []) a).getD 0)).sum) ∧
    (∀ chosen : Source,
      get_source_method system_name sources func_name args = Except.ok chosen →
      ∃ pre post, sources = pre ++ chosen :: post ∧
        is_source_valid chosen func_name = true ∧
        0 < get_source_speed_score chosen func_name args ∧
        (∀ t ∈ pre, is_source_valid t func_name = true →
          get_source_speed_score t func_name args <
            get_source_speed_score chosen func_name args) ∧
        (∀ t ∈ post, is_source_valid t func_name = true →
          get_source_speed_score t func_name args ≤
            get_source_speed_score chosen func_name args)) ∧
    (get_source_method system_name
        (sources.map (fun s => { s with priority := p })) func_name args =
      (get_source_method system_name sources func_name args).map
        (fun s => { s with priority := p })) := by
  refine ⟨?_, ?_, ?_⟩
  · intro source
    show (args.foldl (fun acc arg =>
        acc + (dlookup ((dlookup source.methods func_name).getD []) arg).getD 0)
        ((dlookup ((dlookup source.methods func_name).getD []) "base").getD 0)) = _
    rw [foldl_add_sum]
  · intro chosen hok
    have hsel : (select_source func_name args sources 0 none).1 = some chosen := by
      unfold get_source_method at hok
      cases h : (select_source func_name args sources 0 none).1 with
      | none => rw [h] at hok; exact absurd hok (by simp)
      | some s =>
        rw [h] at hok
        simp only [Except.ok.injEq] at hok
        rw [hok]
    rcases select_source_spec func_name args sources 0 none with
      ⟨h1, h2⟩ | ⟨pre, src, post, h1, h2, h3, h4, h5, h6⟩
    · rw [hsel] at h1
      exact absurd h1 (by simp)
    · rw [hsel] at h1
      simp only [Option.some.injEq] at h1
      subst h1
      exact ⟨pre, post, h2, h3, h4, h5, h6⟩
  · have hm := select_source_map_priority func_name args p sources 0 none
    simp only [Option.map_none'] at hm
    unfold get_source_method
    rw [hm]
    cases hsel : (select_source func_name args sources 0 none).1 with
    | none => simp [hsel, Except.map]
    | some s => simp [hsel, Except.map]

/-- Witness for C3 at the Scenario A sources: resolving `get_builds`
over `[srcX, srcY, srcZ]` selects `srcY` — the strictly higher base
score beats `srcX`, the equal-scoring later `srcZ` does not displace
it, and `srcZ`'s higher priority is ignored. -/
theorem c3_witness :
    ∃ pre post, [srcX, srcY, srcZ] = pre ++ srcY :: post ∧
      is_source_valid srcY "get_builds" = true ∧
      0 < get_source_speed_score srcY "get_builds" [] ∧
      (∀ t ∈ pre, is_source_valid t "get_builds" = true →
        get_source_speed_score t "get_builds" [] <
          get_source_speed_score srcY "get_builds" []) ∧
      (∀ t ∈ post, is_source_valid t "get_builds" = true →
        get_source_speed_score t "get_builds" [] ≤
          get_source_speed_score srcY "get_builds" []) :=
  (c3_resolver_deterministic_selection "sys" [srcX, srcY, srcZ] "get_builds"
    [] 0).2.1 srcY rfl

/-- C4: the claim says no child present in only one side is dropped,
"the same ... one level up when a job is added to a System that already
holds a job of that name".  At the System level the stored job is
replaced wholesale (see C1), so its build "1" — present only in the
stored side — is gone after `add_job`. -/
theorem c4_add_job_drops_stored_builds :
    (∃ j, dlookup sysStored.jobs "j" = some j ∧ dkeys j.builds = ["1"]) ∧
    (∃ j, dlookup (sysStored.add_job jobIncoming).jobs "j" = some j ∧
      dkeys j.builds = []) := by
  exact ⟨⟨jobStored, by decide, by decide⟩, ⟨jobIncoming, by decide, by decide⟩⟩

/-- C5: scalar fields merge first-writer-wins: an unset (`None` or
empty) `Job.url` / `Build.status` takes the incoming value, a set one
is kept unchanged regardless of the incoming value. -/
theorem c5_scalar_merge_first_writer_wins (j1 j2 : Job) (b1 b2 : Build) :
    (strUnset j1.url = true → (j1.merge j2).url = j2.url) ∧
    (strUnset j1.url = false → (j1.merge j2).url = j1.url) ∧
    (strUnset b1.status = true → (b1.merge b2).status = b2.status) ∧
    (strUnset b1.status = false → (b1.merge b2).status = b1.status) := by
  refine ⟨fun h => ?_, fun h => ?_, fun h => ?_, fun h => ?_⟩ <;>
    simp [url_merge, status_merge, fillStr, h]

/-- Witness for C5 at concrete inputs: an unset url takes the incoming
one, a set status survives an incoming conflicting value. -/
theorem c5_witness :
    (Job.merge jobIncoming jobStored).url = jobStored.url ∧
    (Build.merge buildOne { buildOne with status := some "FAILURE" }).status =
      buildOne.status := by
  have h := c5_scalar_merge_first_writer_wins jobIncoming jobStored
    buildOne { buildOne with status := some "FAILURE" }
  exact ⟨h.1 (by decide), h.2.2.2 (by decide)⟩

/-- C6: merge is idempotent at every level of the hierarchy (for
entities whose keyed collections store each child under its identity
key, as every collection the program builds does): merging an entity
into itself is the identity, and merging the same incoming entity a
second time into a tree it was already merged into changes nothing. -/
theorem c6_merge_idempotent (t : Test) (b : Build) (j : Job)
    (b1 b2 : Build) (j1 j2 : Job)
    (hb : b.wf) (hj : j.wf) (hb2 : b2.wf) (hj2 : j2.wf) :
    t.merge t = t ∧ b.merge b = b ∧ j.merge j = j ∧
    (b1.merge b2).merge b2 = b1.merge b2 ∧
    (j1.merge j2).merge j2 = j1.merge j2 :=
  ⟨test_merge_self t, build_merge_self b hb, job_merge_self j hj,
    build_merge_twice b1 b2 hb2, job_merge_twice j1 j2 hj2⟩

/-- Witness for C6 at concrete well-formed entities. -/
theorem c6_witness :
    Test.merge tFix tFix = tFix ∧
    Build.merge buildOne buildOne = buildOne ∧
    Job.merge jobStored jobStored = jobStored ∧
    (Build.merge buildTwo buildOne).merge buildOne = Build.merge buildTwo buildOne ∧
    (Job.merge jobIncoming jobStored).merge jobStored = Job.merge jobIncoming jobStored :=
  c6_merge_idempotent tFix buildOne jobStored buildTwo buildOne jobIncoming
    jobStored (by decide) (by decide) (by decide) (by decide)

/-- C9: `safe_request_generic` passes a normal return through unchanged
and re-raises every exception family as the per-backend custom error
with its human-readable message; nothing else can come out of the
wrapped call. -/
theorem c9_safe_request_wraps_every_error (α : Type) (r : Except RequestsError α)
    (v0 : α) (code : Nat) (d : String) :
    safe_request_generic (Except.ok v0 : Except RequestsError α) = Except.ok v0 ∧
    safe_request_generic (Except.error RequestsError.sslError : Except RequestsError α) =
      Except.error { message := "Please set certificates in order to connect to the system" } ∧
    safe_request_generic (Except.error RequestsError.connectionError : Except RequestsError α) =
      Except.error { message := "Could not connect to target host, please ensure connection details are correct." } ∧
    safe_request_generic (Except.error (RequestsError.httpError code) : Except RequestsError α) =
      Except.error { message := "Got response " ++ toString code ++ " from target host." } ∧
    safe_request_generic (Except.error (RequestsError.otherException d) : Except RequestsError α) =
      Except.error { message := "Failure on request to target host." } ∧
    ((∃ v, r = Except.ok v ∧ safe_request_generic r = Except.ok v) ∨
     (∃ e msg, r = Except.error e ∧
       safe_request_generic r = Except.error { message := msg })) := by
  refine ⟨rfl, rfl, rfl, rfl, rfl, ?_⟩
  cases r with
  | ok v => exact Or.inl ⟨v, rfl, rfl⟩
  | error e => cases e <;> exact Or.inr ⟨_, _, rfl, rfl⟩

/-- C10: a `Source` built without explicit `enabled` / `priority`
keywords is enabled with priority 0, explicit values are kept, and a
default-constructed source is valid for exactly the operations it
declares. -/
theorem c10_source_defaults (name driver : String) (e : Bool) (p : Int)
    (methods : List (String × List (String × Int))) (f : String) :
    (Source.make name driver { enabled := none, priority := none } methods).enabled = true ∧
    (Source.make name driver { enabled := none, priority := none } methods).priority = 0 ∧
    (Source.make name driver { enabled := some e, priority := some p } methods).enabled = e ∧
    (Source.make name driver { enabled := some e, priority := some p } methods).priority = p ∧
    is_source_valid (Source.make name driver { enabled := none, priority := none } methods) f =
      (dlookup methods f).isSome := by
  refine ⟨rfl, rfl, rfl, rfl, ?_⟩
  cases h : dlookup methods f <;> simp [is_source_valid, Source.make, h]

/-- When the flag is present and one of its values is outside the
universe, the input check reports an offending value. -/
theorem check_input_finds (arg : Argument) (univ : List String) (bad : String)
    (hmem : bad ∈ arg.value) (hout : bad ∉ univ) :
    ∃ b, check_input_environments (some arg) univ = some b ∧
      b ∈ arg.value ∧ b ∉ univ := by
  have hred : check_input_environments (some arg) univ =
      arg.value.find? (fun env_name => !univ.contains env_name) := rfl
  rw [hred]
  cases hf : arg.value.find? (fun env_name => !univ.contains env_name) with
  | none =>
    exfalso
    have hh := List.find?_eq_none.mp hf bad hmem
    simp at hh
    exact hout hh
  | some b =>
    refine ⟨b, rfl, List.mem_of_find?_eq_some hf, ?_⟩
    have hh := List.find?_some hf
    simp at hh
    exact hh

/-- Every system the filtering pass keeps is consistent with the user
input. -/
theorem mem_filter_environments_systems (args : CiArgs) :
    ∀ (envs : List Environment) (sys : CISystem),
      sys ∈ (filter_environments args envs).2 →
      consistent_system args sys = true := by
  intro envs
  induction envs with
  | nil =>
    intro sys h
    simp [filter_environments] at h
  | cons env rest ih =>
    intro sys h
    simp only [filter_environments] at h
    split at h
    · exact ih sys h
    · split at h
      · exact ih sys h
      · rcases List.mem_append.mp h with h1 | h2
        · exact (List.mem_filter.mp h1).2
        · exact ih sys h2

/-- Every environment the filtering pass keeps has a nonempty filtered
system list, all of whose systems are consistent with the user input. -/
theorem mem_filter_environments_envs (args : CiArgs) :
    ∀ (envs : List Environment) (env2 : Environment),
      env2 ∈ (filter_environments args envs).1 →
      env2.systems ≠ [] ∧
        ∀ sys ∈ env2.systems, consistent_system args sys = true := by
  intro envs
  induction envs with
  | nil =>
    intro env2 h
    simp [filter_environments] at h
  | cons env rest ih =>
    intro env2 h
    simp only [filter_environments] at h
    split at h
    · exact ih env2 h
    · split at h
      · exact ih env2 h
      · rcases List.mem_cons.mp h with heq | h2
        · subst heq
          rename_i hne
          refine ⟨?_, ?_⟩
          · intro hcontra
            apply hne
            have hc2 : List.filter (consistent_system args) env.systems = [] :=
              hcontra
            rw [hc2]
            rfl
          · intro sys hsys
            exact (List.mem_filter.mp hsys).2
        · exact ih env2 h2

/-- When every environment is inconsistent or keeps no system, the
filtering pass keeps no system. -/
theorem filter_environments_empty (args : CiArgs) :
    ∀ (envs : List Environment),
      (∀ env ∈ envs, consistent_environment args env = false ∨
        env.systems.filter (consistent_system args) = []) →
      (filter_environments args envs).2 = [] := by
  intro envs
  induction envs with
  | nil => intro h; rfl
  | cons env rest ih =>
    intro h
    have hrest := ih (fun e he => h e (List.mem_cons_of_mem env he))
    simp only [filter_environments]
    rcases h env (List.mem_cons_self env rest) with hc | hfil
    · simp [hc, hrest]
    · simp [hfil, hrest]

/-- A consistent system meets the user's source-name constraint. -/
theorem consistent_system_sources (args : CiArgs) (sys : CISystem)
    (h : consistent_system args sys = true) (usrc : Argument)
    (hs : args.sources = some usrc) :
    ∃ src ∈ sys.sources, src.name ∈ usrc.value := by
  simp only [consistent_system] at h
  by_cases h1 : (match args.system_type with
      | some user_system_type => !user_system_type.value.contains sys.system_type
      | none => false) = true
  · rw [if_pos h1] at h
    exact absurd h (by simp)
  · rw [if_neg h1] at h
    by_cases h2 : (match args.systems with
        | some user_systems => !user_systems.value.contains sys.name
        | none => false) = true
    · rw [if_pos h2] at h
      exact absurd h (by simp)
    · rw [if_neg h2] at h
      rw [hs] at h
      have h3 : (if (!usrc.value.any
          fun n => (sys.sources.map Source.name).contains n) = true
          then false else true) = true := h
      cases hany : usrc.value.any
          (fun n => (sys.sources.map Source.name).contains n) with
      | false =>
        rw [hany] at h3
        simp at h3
      | true =>
        rcases List.any_eq_true.mp hany with ⟨n, hn, hcont⟩
        have hmap : n ∈ sys.sources.map Source.name := by simpa using hcont
        rcases List.mem_map.mp hmap with ⟨src, hsrc, hname⟩
        exact ⟨src, hsrc, hname ▸ hn⟩

/-- C7: on any configuration and user input, an unknown requested
environment name makes `validate_environments` raise
`InvalidEnvironment` — carrying an offending name and the configured
environment names — with no filtered result produced, whatever the
other constraints; once the environment names all exist, an unknown
requested system name likewise raises `InvalidSystem` before any
filtering. -/
theorem c7_existence_check_before_filtering (args : CiArgs)
    (environments : List Environment) (ua us : Argument) (bad : String) :
    (args.env_name = some ua → bad ∈ ua.value →
      bad ∉ environments.map Environment.name →
      ∃ b, b ∈ ua.value ∧ b ∉ environments.map Environment.name ∧
        validate_environments args environments =
          Except.error (VError.invalidEnvironment b
            (environments.map Environment.name))) ∧
    (check_input_environments args.env_name (environments.map Environment.name) = none →
      args.systems = some us → bad ∈ us.value →
      bad ∉ (environments.flatMap Environment.systems).map CISystem.name →
      ∃ b, b ∈ us.value ∧
        b ∉ (environments.flatMap Environment.systems).map CISystem.name ∧
        validate_environments args environments =
          Except.error (VError.invalidSystem b
            ((environments.flatMap Environment.systems).map CISystem.name))) := by
  refine ⟨?_, ?_⟩
  · intro he hbad hout
    obtain ⟨b, hfind, hbv, hbout⟩ :=
      check_input_finds ua (environments.map Environment.name) bad hbad hout
    refine ⟨b, hbv, hbout, ?_⟩
    simp only [validate_environments]
    rw [he, hfind]
  · intro hc1 hs hbad hout
    obtain ⟨b, hfind, hbv, hbout⟩ :=
      check_input_finds us ((environments.flatMap Environment.systems).map CISystem.name)
        bad hbad hout
    refine ⟨b, hbv, hbout, ?_⟩
    simp only [validate_environments]
    rw [hc1, hs, hfind]

/-- Witness for C7: Scenario C — requesting environment "prod" against
a configuration holding only "staging" raises `InvalidEnvironment`
listing "staging". -/
theorem c7_witness :
    ∃ b, b ∈ (Argument.mk ["prod"]).value ∧
      b ∉ [envStaging].map Environment.name ∧
      validate_environments argsProd [envStaging] =
        Except.error (VError.invalidEnvironment b
          ([envStaging].map Environment.name)) :=
  (c7_existence_check_before_filtering argsProd [envStaging]
    (Argument.mk ["prod"]) (Argument.mk []) "prod").1 rfl (by decide) (by decide)

/-- C8: when `validate_environments` returns, every returned system
satisfies every user constraint (in particular, with a source-name
constraint it has an attached source whose name was requested), every
returned environment kept at least one system (an emptied environment
is dropped), at least one system is returned, and when the filtering
would keep no system at all the function instead raises
`NoValidSystem` with the configured system names. -/
theorem c8_filtering_keeps_only_consistent (args : CiArgs)
    (environments : List Environment) (kept_envs : List Environment)
    (kept_systems : List CISystem) :
    (validate_environments args environments = Except.ok (kept_envs, kept_systems) →
      kept_systems ≠ [] ∧
      (∀ sys ∈ kept_systems, consistent_system args sys = true) ∧
      (∀ sys ∈ kept_systems, ∀ usrc, args.sources = some usrc →
        ∃ src ∈ sys.sources, src.name ∈ usrc.value) ∧
      (∀ env ∈ kept_envs, env.systems ≠ [] ∧
        ∀ sys ∈ env.systems, consistent_system args sys = true)) ∧
    (check_input_environments args.env_name (environments.map Environment.name) = none →
      check_input_environments args.systems
        ((environments.flatMap Environment.systems).map CISystem.name) = none →
      (∀ env ∈ environments, consistent_environment args env = false ∨
        env.systems.filter (consistent_system args) = []) →
      validate_environments args environments =
        Except.error (VError.noValidSystem
          ((environments.flatMap Environment.systems).map CISystem.name))) := by
  refine ⟨?_, ?_⟩
  · intro hok
    simp only [validate_environments] at hok
    split at hok
    · exact absurd hok (by simp)
    · split at hok
      · exact absurd hok (by simp)
      · split at hok
        · exact absurd hok (by simp)
        · rename_i hne
          simp only [Except.ok.injEq] at hok
          have h1 : (filter_environments args environments).1 = kept_envs := by
            rw [hok]
          have h2 : (filter_environments args environments).2 = kept_systems := by
            rw [hok]
          rw [h2] at hne
          refine ⟨?_, ?_, ?_, ?_⟩
          · intro hcontra
            rw [hcontra] at hne
            exact hne rfl
          · intro sys hsys
            exact mem_filter_environments_systems args environments sys (h2 ▸ hsys)
          · intro sys hsys usrc husrc
            exact consistent_system_sources args sys
              (mem_filter_environments_systems args environments sys (h2 ▸ hsys))
              usrc husrc
          · intro env henv
            exact mem_filter_environments_envs args environments env (h1 ▸ henv)
  · intro hc1 hc2 hall
    have hempty := filter_environments_empty args environments hall
    simp only [validate_environments]
    rw [hc1, hc2, hempty]
    rfl

/-- Witness for C8: the source-name filter keeps only the system with a
matching attached source, the emptied environment "e2" is dropped, and
the kept environment is returned with its filtered system list. -/
theorem c8_witness :
    [sysA] ≠ [] ∧
    (∀ sys ∈ [sysA], consistent_system argsSourceFilter sys = true) ∧
    (∀ sys ∈ [sysA], ∀ usrc, argsSourceFilter.sources = some usrc →
      ∃ src ∈ sys.sources, src.name ∈ usrc.value) ∧
    (∀ env ∈ [{ envE1 with systems := [sysA] }], env.systems ≠ [] ∧
      ∀ sys ∈ env.systems, consistent_system argsSourceFilter sys = true) :=
  (c8_filtering_keeps_only_consistent argsSourceFilter [envE1, envE2]
    [{ envE1 with systems := [sysA] }] [sysA]).1 rfl
